import Mathlib

/-!
Verification development for the gamified fitness-tracking client.

The progression engine, quest catalog and session lifecycle live in
src/index.tsx.  We embed them shallowly: JavaScript numbers used for quest
progress, goals and distances become rationals; experience rewards, player
experience and levels (always integers in the code) become naturals; the
ISO timestamps handled through Date are modelled as integer epoch-minutes,
with toISOString-style calendar days recovered by floor division (two
timestamps render the same UTC date string exactly when their UTC day
numbers agree).
-/

/-- Quest kind: count-based (static) or kilometer-based (distance),
mirroring the type field of the Quest interface. -/
inductive QuestType where
  | static : QuestType
  | distance : QuestType
deriving Repr, DecidableEq

/-- The Quest interface of src/index.tsx. -/
structure Quest where
  id : String
  title : String
  descr : String
  xp : ℕ
  type : QuestType
  goal : ℚ
  progress : ℚ
deriving Repr, DecidableEq

/-- The Skill interface of src/index.tsx. -/
structure Skill where
  name : String
  level : ℕ
  descr : String
deriving Repr, DecidableEq

/-- The UserState interface of src/index.tsx; lastLogin is epoch-minutes. -/
structure UserState where
  level : ℕ
  xp : ℕ
  difficulty : String
  quests : List Quest
  skills : List Skill
  name : String
  lastLogin : ℤ
  dailySteps : ℚ
  dailyDistance : ℚ
deriving Repr, DecidableEq

/-- XP_PER_LEVEL constant (100). -/
def XP_PER_LEVEL : ℕ := 100

/-- The while loop of updateQuestProgress: starting from a level and a
total experience, repeatedly subtract the threshold XP_PER_LEVEL * level
and increment the level while the experience reaches the threshold.
Returns the final (level, xp) pair. -/
def levelUp (level xp : ℕ) : ℕ × ℕ :=
  if XP_PER_LEVEL * level ≤ xp then
    levelUp (level + 1) (xp - XP_PER_LEVEL * level)
  else
    (level, xp)
termination_by xp + 2 - level
decreasing_by
  simp only [XP_PER_LEVEL] at *
  omega

/-- The per-quest update inside the map of updateQuestProgress: a quest
matching the identifier and still below its goal gets its progress clamped
to min (progress + value) goal; every other quest is untouched. -/
def applyDelta (questId : String) (value : ℚ) (q : Quest) : Quest :=
  if q.id = questId ∧ q.progress < q.goal then
    { q with progress := min (q.progress + value) q.goal }
  else
    q

/-- The xpGained contribution of one quest in updateQuestProgress: the
quest's reward exactly when the clamped new progress reaches the goal
while the old progress was below it. -/
def questGain (questId : String) (value : ℚ) (q : Quest) : ℕ :=
  if q.id = questId ∧ q.progress < q.goal then
    if q.goal ≤ min (q.progress + value) q.goal ∧ q.progress < q.goal then q.xp else 0
  else
    0

/-- The xpGained accumulator of updateQuestProgress over the quest list. -/
def xpGained (questId : String) (value : ℚ) (quests : List Quest) : ℕ :=
  (quests.map (questGain questId value)).sum

/-- updateQuestProgress of src/index.tsx: map the delta over the quests,
return the state unchanged when no experience was gained and no progress
moved, otherwise add the gained experience and run the level-up loop. -/
def updateQuestProgress (s : UserState) (questId : String) (value : ℚ) : UserState :=
  let newQuests := s.quests.map (applyDelta questId value)
  let xpG := xpGained questId value s.quests
  if xpG = 0 ∧ ((newQuests.zip s.quests).all fun p => decide (p.1.progress = p.2.progress)) = true then
    s
  else
    let r := levelUp s.level (s.xp + xpG)
    { s with quests := newQuests, xp := r.2, level := r.1 }

/-- A raw quest definition as returned by the AI oracle (no progress
field yet); the schema of the generateContent calls. -/
structure QuestDef where
  id : String
  title : String
  descr : String
  xp : ℕ
  type : QuestType
  goal : ℚ
deriving Repr, DecidableEq

/-- Spreading a generated quest definition with progress 0, as in
`{ ...q, progress: 0 }`. -/
def initQuest (qd : QuestDef) : Quest :=
  { id := qd.id, title := qd.title, descr := qd.descr, xp := qd.xp,
    type := qd.type, goal := qd.goal, progress := 0 }

/-- UTC calendar-day number of an epoch-minutes timestamp: what
`toISOString().split('T')[0]` determines (two timestamps produce the same
UTC date string iff these day numbers agree). -/
def utcDayOf (t : ℤ) : ℤ := Int.fdiv t 1440

/-- The daily-refresh branch of the load effect in App (src/index.tsx
lines 472-517): when the current UTC day differs from the saved record's
last-login UTC day, replace the quests with the freshly generated batch
(empty when the oracle call failed, i.e. `oracle = none`), stamp the new
timestamp and zero the daily counters; otherwise use the record as-is. -/
def loadEffect (s : UserState) (now : ℤ) (oracle : Option (List QuestDef)) : UserState :=
  if utcDayOf now ≠ utcDayOf s.lastLogin then
    { s with quests := (oracle.map fun l => l.map initQuest).getD [],
             lastLogin := now, dailyDistance := 0, dailySteps := 0 }
  else
    s

/-- The initial UserState built on questionnaire completion
(src/index.tsx lines 181-191): level 1, no experience, generated quests
at progress 0, no skills, zero daily counters. -/
def initialState (name difficulty : String) (qds : List QuestDef) (now : ℤ) : UserState :=
  { name := name, level := 1, xp := 0, difficulty := difficulty,
    quests := qds.map initQuest, skills := [],
    lastLogin := now, dailySteps := 0, dailyDistance := 0 }

/-- States reachable through the public operations: onboarding creates a
record, quest-progress updates and daily refreshes transform it. -/
inductive Reachable : UserState → Prop where
  | onboard : ∀ name difficulty qds now, Reachable (initialState name difficulty qds now)
  | update : ∀ s questId value, Reachable s → Reachable (updateQuestProgress s questId value)
  | refresh : ∀ s now oracle, Reachable s → Reachable (loadEffect s now oracle)

/-- One iteration of the while loop of updateQuestProgress on a
(level, xp) pair: increment the level and subtract the old threshold. -/
def loopStep (p : ℕ × ℕ) : ℕ × ℕ := (p.1 + 1, p.2 - XP_PER_LEVEL * p.1)

/-- Exit condition of the while loop: experience below the threshold. -/
def loopDone (p : ℕ × ℕ) : Prop := p.2 < XP_PER_LEVEL * p.1

/-- Geographic coordinates in degrees, the part of
GeolocationCoordinates read by haversineDistance. -/
structure Coordinates where
  latitude : ℝ
  longitude : ℝ

/-- Degrees to radians: the toRad helper inside haversineDistance. -/
noncomputable def toRad (x : ℝ) : ℝ := x * Real.pi / 180

/-- Math.atan2 y x: the argument of the complex number x + y*i,
in the interval (-pi, pi]. -/
noncomputable def atan2 (y x : ℝ) : ℝ := Complex.arg ⟨x, y⟩

/-- The haversine intermediate value a of haversineDistance. -/
noncomputable def havA (c1 c2 : Coordinates) : ℝ :=
  let dLat := toRad (c2.latitude - c1.latitude)
  let dLon := toRad (c2.longitude - c1.longitude)
  let lat1 := toRad c1.latitude
  let lat2 := toRad c2.latitude
  Real.sin (dLat / 2) * Real.sin (dLat / 2) +
    Real.sin (dLon / 2) * Real.sin (dLon / 2) * Real.cos lat1 * Real.cos lat2

/-- haversineDistance of src/index.tsx: great-circle distance in
kilometers with Earth radius R = 6371. -/
noncomputable def haversineDistance (c1 c2 : Coordinates) : ℝ :=
  6371 * (2 * atan2 (Real.sqrt (havA c1 c2)) (Real.sqrt (1 - havA c1 c2)))

/-- Modelled from the spec: the spec claims the daily-refresh comparison
uses the calendar date "in the local timezone"; this is the local
calendar-day number of an epoch-minutes timestamp under a timezone offset
tz in minutes.  The code itself derives days from toISOString, i.e. from
utcDayOf; this definition exists to compare the two. -/
def localDayOf (tz t : ℤ) : ℤ := Int.fdiv (t + tz) 1440

/-- A concrete incomplete quest: 10 units to go, 250 experience reward. -/
def qA : Quest :=
  { id := "q1", title := "t", descr := "d", xp := 250,
    type := QuestType.static, goal := 10, progress := 0 }

/-- A concrete fresh level-1 record holding only qA. -/
def sA : UserState :=
  { level := 1, xp := 0, difficulty := "E", quests := [qA], skills := [],
    name := "P", lastLogin := 1380, dailySteps := 0, dailyDistance := 0 }

/-- A concrete record whose only quest is already complete. -/
def sC : UserState :=
  { level := 1, xp := 0, difficulty := "E",
    quests := [{ id := "q1", title := "t", descr := "d", xp := 250,
                 type := QuestType.static, goal := 10, progress := 10 }],
    skills := [], name := "P", lastLogin := 1380,
    dailySteps := 0, dailyDistance := 0 }

/-- A concrete generated quest definition for refresh instances. -/
def qdA : QuestDef :=
  { id := "q2", title := "t2", descr := "d2", xp := 50,
    type := QuestType.distance, goal := 3 }

theorem applyDelta_keeps_id (questId : String) (v : ℚ) (q : Quest) :
    (applyDelta questId v q).id = q.id := by
  unfold applyDelta; split <;> rfl

theorem applyDelta_of_complete (questId : String) (v : ℚ) (q : Quest)
    (h : q.id = questId → q.goal ≤ q.progress) : applyDelta questId v q = q := by
  unfold applyDelta
  rw [if_neg]
  rintro ⟨hid, hlt⟩
  exact absurd (h hid) (not_le.mpr hlt)

theorem questGain_of_ne (questId : String) (v : ℚ) (q : Quest) (h : q.id ≠ questId) :
    questGain questId v q = 0 := by
  unfold questGain
  rw [if_neg]
  rintro ⟨hid, -⟩
  exact h hid

theorem xpGained_cons (questId : String) (v : ℚ) (a : Quest) (l : List Quest) :
    xpGained questId v (a :: l) = questGain questId v a + xpGained questId v l := by
  simp [xpGained]

theorem xpGained_of_complete (questId : String) (v : ℚ) (quests : List Quest)
    (h : ∀ r ∈ quests, r.id = questId → r.goal ≤ r.progress) :
    xpGained questId v quests = 0 := by
  apply List.sum_eq_zero
  intro x hx
  rw [List.mem_map] at hx
  obtain ⟨r, hr, rfl⟩ := hx
  unfold questGain
  rw [if_neg]
  rintro ⟨hid, hlt⟩
  exact absurd (h r hr hid) (not_le.mpr hlt)

theorem xpGained_single (v : ℚ) (q : Quest) (quests : List Quest)
    (hnd : (quests.map Quest.id).Nodup) (hq : q ∈ quests) :
    xpGained q.id v quests = questGain q.id v q := by
  induction quests with
  | nil => cases hq
  | cons a l ih =>
    rw [xpGained_cons]
    rw [List.map_cons, List.nodup_cons] at hnd
    rcases List.mem_cons.mp hq with rfl | hmem
    · have hz : xpGained q.id v l = 0 := by
        apply List.sum_eq_zero
        intro x hx
        rw [List.mem_map] at hx
        obtain ⟨r, hr, rfl⟩ := hx
        apply questGain_of_ne
        intro hid
        exact hnd.1 (hid ▸ List.mem_map_of_mem Quest.id hr)
      omega
    · have ha : questGain q.id v a = 0 := by
        apply questGain_of_ne
        intro hid
        exact hnd.1 (hid ▸ List.mem_map_of_mem Quest.id hmem)
      rw [ha, ih hnd.2 hmem]
      omega

theorem mem_map_of_id (v : ℚ) (q r : Quest) (quests : List Quest)
    (hnd : (quests.map Quest.id).Nodup) (hq : q ∈ quests)
    (hr : r ∈ quests.map (applyDelta q.id v)) (hid : r.id = q.id) :
    r = applyDelta q.id v q := by
  rw [List.mem_map] at hr
  obtain ⟨x, hx, rfl⟩ := hr
  have hxid : x.id = q.id := by rw [← applyDelta_keeps_id q.id v x]; exact hid
  have : x = q := List.inj_on_of_nodup_map hnd hx hq hxid
  rw [this]

theorem zip_self_all_progress (l : List Quest) :
    ((l.zip l).all fun p => decide (p.1.progress = p.2.progress)) = true := by
  induction l with
  | nil => rfl
  | cons a t ih => simpa using ih

/-- When some matched quest is strictly below its goal and the delta is
positive, updateQuestProgress takes its changed branch. -/
theorem updateQuestProgress_changed (s : UserState) (q : Quest) (d : ℚ)
    (hq : q ∈ s.quests) (hlt : q.progress < q.goal) (hd : 0 < d) :
    updateQuestProgress s q.id d =
      { s with quests := s.quests.map (applyDelta q.id d),
               xp := (levelUp s.level (s.xp + xpGained q.id d s.quests)).2,
               level := (levelUp s.level (s.xp + xpGained q.id d s.quests)).1 } := by
  simp only [updateQuestProgress]
  rw [if_neg]
  rintro ⟨-, hall⟩
  rw [List.all_eq_true] at hall
  have hz : (s.quests.map (applyDelta q.id d)).zip s.quests
      = s.quests.map fun x => (applyDelta q.id d x, x) := by
    have h2 := List.zip_map' (applyDelta q.id d) id s.quests
    simpa using h2
  have hmem : (applyDelta q.id d q, q) ∈ (s.quests.map (applyDelta q.id d)).zip s.quests := by
    rw [hz]
    exact List.mem_map_of_mem _ hq
  have heq := hall _ hmem
  simp only [decide_eq_true_eq] at heq
  have hgt : q.progress < (applyDelta q.id d q).progress := by
    unfold applyDelta
    rw [if_pos (show q.id = q.id ∧ q.progress < q.goal from ⟨rfl, hlt⟩)]
    exact lt_min (lt_add_of_pos_right q.progress hd) hlt
  exact absurd heq (ne_of_gt hgt)

/-- The level-up loop preserves experience: starting at a level of at
least 1 the loop ends strictly below the final threshold and the residual
plus all consumed thresholds equals the starting total. -/
theorem levelUp_spec (xp : ℕ) : ∀ level : ℕ, 1 ≤ level →
    level ≤ (levelUp level xp).1 ∧
    (levelUp level xp).2 < XP_PER_LEVEL * (levelUp level xp).1 ∧
    (levelUp level xp).2
      + ∑ k in Finset.Ico level (levelUp level xp).1, XP_PER_LEVEL * k = xp := by
  induction xp using Nat.strong_induction_on with
  | _ xp ih =>
    intro level hl
    rw [levelUp.eq_def]
    split
    · rename_i h
      have hsub : xp - XP_PER_LEVEL * level < xp := by
        simp only [XP_PER_LEVEL] at h ⊢; omega
      obtain ⟨h1, h2, h3⟩ := ih _ hsub (level + 1) (by omega)
      refine ⟨by omega, h2, ?_⟩
      have hlt : level < (levelUp (level + 1) (xp - XP_PER_LEVEL * level)).1 := by omega
      rw [Finset.sum_eq_sum_Ico_succ_bot hlt]
      simp only [XP_PER_LEVEL] at h h3 ⊢
      omega
    · rename_i h
      push_neg at h
      exact ⟨le_refl _, h, by simp⟩

/-- C9: the level-up while loop terminates: for every starting level of
at least 1 and every finite experience total, the loop reaches its exit
condition after finitely many iterations of loopStep (each iteration at
level at least 1 subtracts a threshold of at least 100), and the
well-founded-recursive levelUp computes exactly that final iterate. -/
theorem levelUp_iterates (xp : ℕ) : ∀ level : ℕ, 1 ≤ level →
    ∃ n : ℕ, loopDone (loopStep^[n] (level, xp)) ∧
      loopStep^[n] (level, xp) = levelUp level xp := by
  induction xp using Nat.strong_induction_on with
  | _ xp ih =>
    intro level hl
    rw [levelUp.eq_def]
    split
    · rename_i h
      have hsub : xp - XP_PER_LEVEL * level < xp := by
        simp only [XP_PER_LEVEL] at h ⊢; omega
      obtain ⟨n, hd, he⟩ := ih _ hsub (level + 1) (by omega)
      refine ⟨n + 1, ?_, ?_⟩
      · rw [Function.iterate_succ_apply]
        simpa [loopStep] using hd
      · rw [Function.iterate_succ_apply]
        simpa [loopStep] using he
    · rename_i h
      push_neg at h
      exact ⟨0, h, rfl⟩

/-- C3: for a positive delta aimed at a quest identifier that is absent
from the active set, or whose matching quests are already at or above
their goal, updateQuestProgress returns the record itself, a silent
idempotent no-op. -/
theorem questUpdate_noop (s : UserState) (questId : String) (d : ℚ) (hd : 0 < d)
    (h : ∀ q ∈ s.quests, q.id = questId → q.goal ≤ q.progress) :
    updateQuestProgress s questId d = s := by
  have hmap : ∀ l : List Quest, (∀ q ∈ l, q.id = questId → q.goal ≤ q.progress) →
      l.map (applyDelta questId d) = l := by
    intro l hl
    induction l with
    | nil => rfl
    | cons a t ih =>
      simp only [List.map_cons]
      rw [applyDelta_of_complete _ _ _ (hl a (List.mem_cons_self a t)),
        ih fun q hq hid => hl q (List.mem_cons_of_mem a hq) hid]
  simp only [updateQuestProgress]
  rw [if_pos ⟨xpGained_of_complete questId d s.quests h,
    by rw [hmap s.quests h]; exact zip_self_all_progress s.quests⟩]

/-- C1: under the record invariant (level at least 1, experience below
the current threshold), updateQuestProgress conserves experience: the
final residual experience sits below the final threshold and, together
with the consumed thresholds 100*k for k from the old level up to the
final level (several in one call when the gain is large), accounts
exactly for the old experience plus the gained experience. -/
theorem levelLoop_conservation (s : UserState) (questId : String) (value : ℚ)
    (hL : 1 ≤ s.level) (hxp : s.xp < XP_PER_LEVEL * s.level) :
    s.level ≤ (updateQuestProgress s questId value).level ∧
    (updateQuestProgress s questId value).xp
        < XP_PER_LEVEL * (updateQuestProgress s questId value).level ∧
    (updateQuestProgress s questId value).xp
      + ∑ k in Finset.Ico s.level (updateQuestProgress s questId value).level,
          XP_PER_LEVEL * k
      = s.xp + xpGained questId value s.quests := by
  simp only [updateQuestProgress]
  split
  · rename_i h
    simp [h.1, hxp, Finset.Ico_self]
  · obtain ⟨h1, h2, h3⟩ := levelUp_spec (s.xp + xpGained questId value s.quests) s.level hL
    exact ⟨h1, h2, h3⟩

/-- C2: an incomplete quest hit by a positive delta advances to the
clamped progress min (old + d) goal; its reward enters the gained
experience exactly when the goal is crossed; and once the goal has been
crossed, no later delta on that quest can ever produce a gain again. -/
theorem questUpdate_incomplete (s : UserState) (q : Quest) (d : ℚ)
    (hnd : (s.quests.map Quest.id).Nodup) (hq : q ∈ s.quests)
    (hlt : q.progress < q.goal) (hd : 0 < d) :
    (updateQuestProgress s q.id d).quests = s.quests.map (applyDelta q.id d) ∧
    applyDelta q.id d q ∈ (updateQuestProgress s q.id d).quests ∧
    (applyDelta q.id d q).progress = min (q.progress + d) q.goal ∧
    (∀ r ∈ (updateQuestProgress s q.id d).quests, r.id = q.id →
        r.progress = min (q.progress + d) q.goal) ∧
    xpGained q.id d s.quests = (if q.goal ≤ q.progress + d then q.xp else 0) ∧
    (q.goal ≤ q.progress + d →
      ∀ e : ℚ, xpGained q.id e (updateQuestProgress s q.id d).quests = 0) := by
  have hch := updateQuestProgress_changed s q d hq hlt hd
  have hquests : (updateQuestProgress s q.id d).quests = s.quests.map (applyDelta q.id d) := by
    rw [hch]
  have happ : (applyDelta q.id d q).progress = min (q.progress + d) q.goal := by
    unfold applyDelta
    rw [if_pos (show q.id = q.id ∧ q.progress < q.goal from ⟨rfl, hlt⟩)]
  have hgain : xpGained q.id d s.quests = (if q.goal ≤ q.progress + d then q.xp else 0) := by
    rw [xpGained_single d q s.quests hnd hq]
    unfold questGain
    rw [if_pos (show q.id = q.id ∧ q.progress < q.goal from ⟨rfl, hlt⟩)]
    simp [le_min_iff, hlt]
  refine ⟨hquests, ?_, happ, ?_, hgain, ?_⟩
  · rw [hquests]
    exact List.mem_map_of_mem _ hq
  · intro r hr hid
    rw [hquests] at hr
    rw [mem_map_of_id d q r s.quests hnd hq hr hid, happ]
  · intro hcross e
    rw [hquests]
    apply xpGained_of_complete
    intro r hr hid
    have hrq := mem_map_of_id d q r s.quests hnd hq hr hid
    have hgoal : r.goal = q.goal := by
      rw [hrq]
      unfold applyDelta
      rw [if_pos (show q.id = q.id ∧ q.progress < q.goal from ⟨rfl, hlt⟩)]
    have hprog : r.progress = q.goal := by
      rw [hrq, happ]
      exact min_eq_right hcross
    rw [hgoal, hprog]

theorem questUpdate_noop_witness :
    0 < (5 : ℚ) ∧ updateQuestProgress sC "q1" 5 = sC :=
  ⟨by decide, questUpdate_noop sC "q1" 5 (by decide) (by decide)⟩

theorem levelLoop_conservation_witness :
    1 ≤ sA.level ∧ sA.xp < XP_PER_LEVEL * sA.level ∧
    (sA.level ≤ (updateQuestProgress sA "q1" 10).level ∧
     (updateQuestProgress sA "q1" 10).xp
        < XP_PER_LEVEL * (updateQuestProgress sA "q1" 10).level ∧
     (updateQuestProgress sA "q1" 10).xp
       + ∑ k in Finset.Ico sA.level (updateQuestProgress sA "q1" 10).level,
           XP_PER_LEVEL * k
       = sA.xp + xpGained "q1" 10 sA.quests) :=
  ⟨by decide, by decide, levelLoop_conservation sA "q1" 10 (by decide) (by decide)⟩

theorem questUpdate_incomplete_witness :
    (updateQuestProgress sA qA.id 10).quests = sA.quests.map (applyDelta qA.id 10) ∧
    applyDelta qA.id 10 qA ∈ (updateQuestProgress sA qA.id 10).quests ∧
    (applyDelta qA.id 10 qA).progress = min (qA.progress + 10) qA.goal ∧
    (∀ r ∈ (updateQuestProgress sA qA.id 10).quests, r.id = qA.id →
        r.progress = min (qA.progress + 10) qA.goal) ∧
    xpGained qA.id 10 sA.quests = (if qA.goal ≤ qA.progress + 10 then qA.xp else 0) ∧
    (qA.goal ≤ qA.progress + 10 →
      ∀ e : ℚ, xpGained qA.id e (updateQuestProgress sA qA.id 10).quests = 0) :=
  questUpdate_incomplete sA qA 10 (by decide) (by decide) (by decide) (by decide)

/-- C4: the spec's ground-truth arithmetic: a level-1 record with no
experience that completes a 250-experience quest ends at level 2 with
residual experience 150 (one threshold of 100 consumed; 150 < 200 stops
the loop). -/
theorem groundTruth_levelTwo :
    (updateQuestProgress sA "q1" 10).level = 2 ∧
    (updateQuestProgress sA "q1" 10).xp = 150 := by
  have hlu : levelUp 1 250 = (2, 150) := by
    rw [levelUp.eq_def]; norm_num [XP_PER_LEVEL]
    rw [levelUp.eq_def]; norm_num [XP_PER_LEVEL]
  norm_num [updateQuestProgress, xpGained, questGain, applyDelta, sA, qA, min_def, hlu]

/-- C5: on load, a record whose last-login day differs from the current
day gets its quests replaced wholesale by the freshly generated batch at
progress 0, its daily counters reset and its day stamped, while level,
experience, name, difficulty and skills carry over; a record from the
same day is used exactly as persisted. -/
theorem dailyRefresh_behavior (s : UserState) (now : ℤ) (oracle : Option (List QuestDef)) :
    (utcDayOf now ≠ utcDayOf s.lastLogin →
      (loadEffect s now oracle).quests = (oracle.getD []).map initQuest ∧
      (∀ r ∈ (loadEffect s now oracle).quests, r.progress = 0) ∧
      (loadEffect s now oracle).dailySteps = 0 ∧
      (loadEffect s now oracle).dailyDistance = 0 ∧
      (loadEffect s now oracle).lastLogin = now ∧
      (loadEffect s now oracle).level = s.level ∧
      (loadEffect s now oracle).xp = s.xp ∧
      (loadEffect s now oracle).name = s.name ∧
      (loadEffect s now oracle).difficulty = s.difficulty ∧
      (loadEffect s now oracle).skills = s.skills) ∧
    (utcDayOf now = utcDayOf s.lastLogin → loadEffect s now oracle = s) := by
  constructor
  · intro h
    have hl : loadEffect s now oracle =
        { s with quests := (oracle.map fun l => l.map initQuest).getD [],
                 lastLogin := now, dailyDistance := 0, dailySteps := 0 } := by
      simp only [loadEffect, if_pos h]
    rw [hl]
    refine ⟨by cases oracle <;> rfl, ?_, rfl, rfl, rfl, rfl, rfl, rfl, rfl, rfl⟩
    intro r hr
    have hr2 : r ∈ (oracle.map fun l => l.map initQuest).getD [] := hr
    cases oracle with
    | none => cases hr2
    | some l =>
      have hr3 : r ∈ l.map initQuest := hr2
      rw [List.mem_map] at hr3
      obtain ⟨qd, hqd, rfl⟩ := hr3
      rfl
  · intro h
    unfold loadEffect
    rw [if_neg fun hc => hc h]

theorem dailyRefresh_behavior_witness :
    utcDayOf 1500 ≠ utcDayOf sA.lastLogin ∧
    ((loadEffect sA 1500 (some [qdA])).quests = ((some [qdA]).getD []).map initQuest ∧
     (∀ r ∈ (loadEffect sA 1500 (some [qdA])).quests, r.progress = 0) ∧
     (loadEffect sA 1500 (some [qdA])).dailySteps = 0 ∧
     (loadEffect sA 1500 (some [qdA])).dailyDistance = 0 ∧
     (loadEffect sA 1500 (some [qdA])).lastLogin = 1500 ∧
     (loadEffect sA 1500 (some [qdA])).level = sA.level ∧
     (loadEffect sA 1500 (some [qdA])).xp = sA.xp ∧
     (loadEffect sA 1500 (some [qdA])).name = sA.name ∧
     (loadEffect sA 1500 (some [qdA])).difficulty = sA.difficulty ∧
     (loadEffect sA 1500 (some [qdA])).skills = sA.skills) :=
  ⟨by decide, (dailyRefresh_behavior sA 1500 (some [qdA])).1 (by decide)⟩

/-- C6 is false as stated: with timezone offset +120 minutes, the
timestamps 1380 (23:00 UTC of day 0) and 1500 (01:00 UTC of day 1) fall
on the same local calendar day, yet loading at time 1500 a record with
last login 1380 does trigger a refresh and changes the record. -/
theorem refresh_local_counterexample :
    localDayOf 120 sA.lastLogin = localDayOf 120 1500 ∧
    loadEffect sA 1500 none ≠ sA := by
  exact ⟨by decide, by decide⟩

/-- C6 amended: the refresh decision compares UTC calendar days (the
days rendered by toISOString), not local ones: the loaded record is used
untouched exactly when the current timestamp falls on the same UTC
calendar day as the stored last login, and is refreshed otherwise. -/
theorem refresh_compare_utc (s : UserState) (now : ℤ) (oracle : Option (List QuestDef)) :
    loadEffect s now oracle = s ↔ utcDayOf now = utcDayOf s.lastLogin := by
  constructor
  · intro h
    by_contra hne
    have hl : (loadEffect s now oracle).lastLogin = now := by
      simp only [loadEffect, if_pos hne]
    rw [h] at hl
    exact hne (by rw [hl])
  · intro h
    unfold loadEffect
    rw [if_neg fun hc => hc h]

/-- C7: when the quest-generation oracle fails during a daily refresh
(modelled by oracle = none), the refresh still completes: empty quest
set, counters reset, day stamped, and every other field of the existing
record preserved uncorrupted. -/
theorem refresh_oracle_failure (s : UserState) (now : ℤ)
    (h : utcDayOf now ≠ utcDayOf s.lastLogin) :
    (loadEffect s now none).quests = [] ∧
    (loadEffect s now none).dailySteps = 0 ∧
    (loadEffect s now none).dailyDistance = 0 ∧
    (loadEffect s now none).lastLogin = now ∧
    (loadEffect s now none).level = s.level ∧
    (loadEffect s now none).xp = s.xp ∧
    (loadEffect s now none).name = s.name ∧
    (loadEffect s now none).difficulty = s.difficulty ∧
    (loadEffect s now none).skills = s.skills := by
  have hl : loadEffect s now none =
      { s with quests := [], lastLogin := now, dailyDistance := 0, dailySteps := 0 } := by
    simp only [loadEffect, if_pos h]
    rfl
  rw [hl]
  exact ⟨rfl, rfl, rfl, rfl, rfl, rfl, rfl, rfl, rfl⟩

theorem refresh_oracle_failure_witness :
    utcDayOf 1500 ≠ utcDayOf sA.lastLogin ∧
    ((loadEffect sA 1500 none).quests = [] ∧
     (loadEffect sA 1500 none).dailySteps = 0 ∧
     (loadEffect sA 1500 none).dailyDistance = 0 ∧
     (loadEffect sA 1500 none).lastLogin = 1500 ∧
     (loadEffect sA 1500 none).level = sA.level ∧
     (loadEffect sA 1500 none).xp = sA.xp ∧
     (loadEffect sA 1500 none).name = sA.name ∧
     (loadEffect sA 1500 none).difficulty = sA.difficulty ∧
     (loadEffect sA 1500 none).skills = sA.skills) :=
  ⟨by decide, refresh_oracle_failure sA 1500 (by decide)⟩

/-- C8: the distance estimator (the haversine great-circle formula with
Earth radius 6371 km) returns exactly 0 on a pair of identical points
and is symmetric in its two arguments. -/
theorem haversine_zero_and_symm :
    (∀ c : Coordinates, haversineDistance c c = 0) ∧
    (∀ c1 c2 : Coordinates, haversineDistance c1 c2 = haversineDistance c2 c1) := by
  have hA0 : ∀ c : Coordinates, havA c c = 0 := by
    intro c
    simp [havA, toRad]
  have hsymm : ∀ c1 c2 : Coordinates, havA c1 c2 = havA c2 c1 := by
    intro c1 c2
    simp only [havA, toRad]
    have hs : ∀ u v : ℝ,
        Real.sin ((u - v) * Real.pi / 180 / 2) = -Real.sin ((v - u) * Real.pi / 180 / 2) := by
      intro u v
      rw [show (u - v) * Real.pi / 180 / 2 = -((v - u) * Real.pi / 180 / 2) by ring,
        Real.sin_neg]
    rw [hs c2.latitude c1.latitude, hs c2.longitude c1.longitude]
    ring
  constructor
  · intro c
    rw [haversineDistance, hA0 c]
    have h1 : (⟨1, 0⟩ : ℂ) = 1 := by
      apply Complex.ext <;> simp
    rw [show (1 : ℝ) - 0 = 1 by ring, Real.sqrt_zero, Real.sqrt_one, atan2, h1,
      Complex.arg_one]
    ring
  · intro c1 c2
    rw [haversineDistance, haversineDistance, hsymm]

/-- C10: dailySteps and dailyDistance are dead fields: onboarding
initializes both to 0, the daily refresh resets both to 0, and quest
updates leave both unchanged, so every state reachable through the
public operations has both counters equal to 0. -/
theorem daily_counters_zero (s : UserState) (h : Reachable s) :
    s.dailySteps = 0 ∧ s.dailyDistance = 0 := by
  induction h with
  | onboard name difficulty qds now => exact ⟨rfl, rfl⟩
  | update s questId value _ ih =>
    have hpres : (updateQuestProgress s questId value).dailySteps = s.dailySteps ∧
        (updateQuestProgress s questId value).dailyDistance = s.dailyDistance := by
      simp only [updateQuestProgress]
      split
      · exact ⟨rfl, rfl⟩
      · exact ⟨rfl, rfl⟩
    rw [hpres.1, hpres.2]
    exact ih
  | refresh s now oracle _ ih =>
    simp only [loadEffect]
    split
    · exact ⟨rfl, rfl⟩
    · exact ih

theorem daily_counters_zero_witness :
    (initialState "P" "E" [] 0).dailySteps = 0 ∧
    (initialState "P" "E" [] 0).dailyDistance = 0 :=
  daily_counters_zero _ (Reachable.onboard "P" "E" [] 0)

theorem levelUp_iterates_witness :
    1 ≤ 1 ∧ ∃ n : ℕ, loopDone (loopStep^[n] (1, 250)) ∧
      loopStep^[n] (1, 250) = levelUp 1 250 :=
  ⟨le_refl 1, levelUp_iterates 250 1 (le_refl 1)⟩
